import Mathlib

/-!
# Verification of the nostr-cli core against its specification

This file gives a shallow embedding, in Lean 4, of the parts of the
`NfNitLoop/nostr-cli` TypeScript repository that the checked claims are
about, and proves (or refutes) each claim over that embedding.

Embedded components, with the source files they are translated from:

* the paged query engine `querySaved` (`src/nostr/client.ts`);
* the publisher `publish` (`src/nostr/client.ts`);
* the inbound-frame handler of the connection (`src/nostr/client.ts`,
  `#onMessage`);
* the single-producer single-consumer `Channel` (`src/channel.ts`);
* the collector's client cache `#getClient` / `#fallbackClients`
  (`src/collect.ts`);
* the NIP-95 file codec `encodeFile` (`src/nostr/nip95.ts`), together with
  models of the base64 and hex encoders it uses from the standard library.

Machine integers are modelled as `Nat`/`Int` (the source is JavaScript,
whose numbers are exact on the ranges exercised here), byte blobs as
`List Nat` with an explicit `< 256` bound where it matters, and strings as
Lean `String`.
-/

namespace NostrCli

/-! ## Data model: events and filters

Translated from `src/nostr/nostr.ts` (the `Event` zod schema: `id`,
`pubkey`, `sig`, `created_at`, `kind`, `tags`, `content`) and
`src/nostr/client_messages.ts` (the `Filter` zod schema: `ids`, `authors`,
`kinds`, `since`, `until`, `limit`, `"#t"`; every field optional, `limit`
a non-negative integer). A missing optional field is `none`.
-/

structure NEvent where
  id : String
  pubkey : String
  sig : String
  created_at : Int
  kind : Nat
  tags : List (List String)
  content : String
deriving DecidableEq, Repr

structure Filter where
  ids : Option (List String) := none
  authors : Option (List String) := none
  kinds : Option (List Int) := none
  since : Option Int := none
  /-- The source field is named `until`; that word is reserved in Lean. -/
  untilTs : Option Int := none
  limit : Option Nat := none
  tagT : Option (List String) := none
deriving DecidableEq, Repr

/-! ## The paged query engine `querySaved`

Translated from `src/nostr/client.ts`, lines 147-209.  `query(filter)`
yields only `EVENT` and `EOSE` messages (it throws on any other
discriminant before `querySaved` sees it), so the message stream of one
`REQ` is modelled as a `List QMsg`.  The relay is modelled as a function
from the filter of a `REQ` to the message stream the server answers with;
`now` is the value of `Date.now()` (milliseconds) at the start of the
call, and the `while` loop carries explicit fuel because a misbehaving
relay can keep the source loop alive forever.
-/

inductive QMsg where
  | evt (e : NEvent)
  | eose
deriving DecidableEq, Repr

/-- Result of consuming one `for await (... of this.query(...))` loop of
`querySaved`: the events yielded to the caller, the final values of the
`batchCount` / `eventCount` / `earliestEvent` variables, and whether the
loop executed `return` (ending the whole generator) rather than falling
through at `EOSE` or at end of stream. -/
structure BatchOut where
  yielded : List NEvent
  batchCount : Nat
  eventCount : Nat
  earliest : Int
  returned : Bool
deriving DecidableEq, Repr

/-- One batch loop of `querySaved` (`client.ts` lines 153-174 for the
first batch, 184-205 for follow-up batches).  The two loops differ in a
single line: the first updates `earliestEvent` with
`Math.min(event.created_at, earliestEvent)` (line 165) while the
follow-up loop assigns `earliestEvent = event.created_at` (line 196);
the flag `isFirstBatch` selects between the two. -/
def runBatch (requestedLimit : Nat) (isFirstBatch : Bool) :
    List QMsg → Nat → Nat → Int → BatchOut
  | [], bc, ec, ee => ⟨[], bc, ec, ee, false⟩
  | QMsg.eose :: _, bc, ec, ee => ⟨[], bc, ec, ee, false⟩
  | QMsg.evt e :: rest, bc, ec, ee =>
    let bc' := bc + 1
    let ec' := ec + 1
    let ee' := if isFirstBatch then min e.created_at ee else e.created_at
    if requestedLimit < ec' then ⟨[], bc', ec', ee', true⟩
    else if ec' = requestedLimit then ⟨[e], bc', ec', ee', true⟩
    else
      let r := runBatch requestedLimit isFirstBatch rest bc' ec' ee'
      ⟨e :: r.yielded, r.batchCount, r.eventCount, r.earliest, r.returned⟩

/-- `Number.MAX_SAFE_INTEGER`. -/
def MAX_SAFE_INTEGER : Nat := 2 ^ 53 - 1

/-- `const requestedLimit = filter.limit ?? Number.MAX_SAFE_INTEGER`
(`client.ts` line 148). -/
def requestedLimit (filter : Filter) : Nat :=
  filter.limit.getD MAX_SAFE_INTEGER

/-- A complete run of `querySaved`: the events yielded, and the filter of
every `REQ` issued (one per call to `this.query`). -/
structure PagedRun where
  yielded : List NEvent
  requests : List Filter
deriving DecidableEq, Repr

/-- The `while (batchCount > 1 && eventCount < requestedLimit)` loop of
`querySaved` (`client.ts` lines 180-207), with fuel. -/
def qsLoop (relay : Filter → List QMsg) (rl : Nat) (filter : Filter) :
    Nat → Nat → Nat → Int → PagedRun
  | 0, _, _, _ => ⟨[], []⟩
  | fuel + 1, bc, ec, ee =>
    if 1 < bc ∧ ec < rl then
      let batchFilter := { filter with untilTs := some (ee - 1) }
      let r := runBatch rl false (relay batchFilter) 0 ec ee
      if r.returned then ⟨r.yielded, [batchFilter]⟩
      else
        let rest := qsLoop relay rl filter fuel r.batchCount r.eventCount r.earliest
        ⟨r.yielded ++ rest.yielded, batchFilter :: rest.requests⟩
    else ⟨[], []⟩

/-- The generator `querySaved(filter)` (`client.ts` lines 147-209):
the first `REQ` uses `filter` unchanged and `earliestEvent` starts at
`Date.now() + 1000 * 60 * 10`; afterwards the paging loop runs. -/
def querySaved (relay : Filter → List QMsg) (now : Int) (fuel : Nat)
    (filter : Filter) : PagedRun :=
  let rl := requestedLimit filter
  let r := runBatch rl true (relay filter) 0 0 (now + 1000 * 60 * 10)
  if r.returned then ⟨r.yielded, [filter]⟩
  else
    let rest := qsLoop relay rl filter fuel r.batchCount r.eventCount r.earliest
    ⟨r.yielded ++ rest.yielded, filter :: rest.requests⟩

/-! ### Helper lemmas about the paging engine -/

/-- Consuming one batch never yields more events than are left under the
requested limit. -/
theorem runBatch_len_le (rl : Nat) (b : Bool) :
    ∀ (msgs : List QMsg) (bc ec : Nat) (ee : Int), ec ≤ rl →
      (runBatch rl b msgs bc ec ee).yielded.length + ec ≤ rl := by
  intro msgs
  induction msgs with
  | nil =>
    intro bc ec ee h
    simpa [runBatch] using h
  | cons m rest ih =>
    intro bc ec ee h
    cases m with
    | eose => simpa [runBatch] using h
    | evt e =>
      simp only [runBatch]
      by_cases h1 : rl < ec + 1
      · simp [h1]
        omega
      · by_cases h2 : ec + 1 = rl
        · simp [h1, h2]
          omega
        · simp only [if_neg h1, if_neg h2]
          have := ih (bc + 1) (ec + 1)
            (if b then min e.created_at ee else e.created_at) (by omega)
          simp only [List.length_cons]
          omega

/-- When a batch loop falls through (no `return`), every event it counted
was also yielded: the final `eventCount` is the initial one plus the
number of yielded events. -/
theorem runBatch_eventCount_of_not_returned (rl : Nat) (b : Bool) :
    ∀ (msgs : List QMsg) (bc ec : Nat) (ee : Int),
      (runBatch rl b msgs bc ec ee).returned = false →
      (runBatch rl b msgs bc ec ee).eventCount =
        ec + (runBatch rl b msgs bc ec ee).yielded.length := by
  intro msgs
  induction msgs with
  | nil => intro bc ec ee _; simp [runBatch]
  | cons m rest ih =>
    intro bc ec ee h
    cases m with
    | eose => simp [runBatch]
    | evt e =>
      simp only [runBatch] at h ⊢
      by_cases h1 : rl < ec + 1
      · simp [h1] at h
      · by_cases h2 : ec + 1 = rl
        · simp [h1, h2] at h
        · simp only [if_neg h1, if_neg h2] at h ⊢
          have := ih (bc + 1) (ec + 1)
            (if b then min e.created_at ee else e.created_at) h
          simp only [List.length_cons]
          omega

/-- The paging loop respects what is left of the requested limit. -/
theorem qsLoop_len_le (relay : Filter → List QMsg) (rl : Nat) (f : Filter) :
    ∀ (fuel bc ec : Nat) (ee : Int), ec ≤ rl →
      (qsLoop relay rl f fuel bc ec ee).yielded.length + ec ≤ rl := by
  intro fuel
  induction fuel with
  | zero =>
    intro bc ec ee h
    simpa [qsLoop] using h
  | succ n ih =>
    intro bc ec ee h
    simp only [qsLoop]
    by_cases hc : 1 < bc ∧ ec < rl
    · simp only [if_pos hc]
      have h1 := runBatch_len_le rl false
        (relay { f with untilTs := some (ee - 1) }) 0 ec ee h
      by_cases hret :
          (runBatch rl false (relay { f with untilTs := some (ee - 1) }) 0 ec ee).returned
      · simp only [hret, if_pos]
        omega
      · rw [Bool.not_eq_true] at hret
        simp only [hret, Bool.false_eq_true, if_neg, not_false_iff]
        have h2 := runBatch_eventCount_of_not_returned rl false
          (relay { f with untilTs := some (ee - 1) }) 0 ec ee hret
        have h3 := ih
          (runBatch rl false (relay { f with untilTs := some (ee - 1) }) 0 ec ee).batchCount
          (runBatch rl false (relay { f with untilTs := some (ee - 1) }) 0 ec ee).eventCount
          (runBatch rl false (relay { f with untilTs := some (ee - 1) }) 0 ec ee).earliest
          (by omega)
        simp only [List.length_append]
        omega
    · simp only [if_neg hc, List.length_nil]
      omega

/-- A full `querySaved` run yields at most `requestedLimit filter`
events. -/
theorem querySaved_len_le (relay : Filter → List QMsg) (now : Int)
    (fuel : Nat) (f : Filter) :
    (querySaved relay now fuel f).yielded.length ≤ requestedLimit f := by
  simp only [querySaved]
  have h1 := runBatch_len_le (requestedLimit f) true (relay f) 0 0
    (now + 1000 * 60 * 10) (Nat.zero_le _)
  by_cases hret :
      (runBatch (requestedLimit f) true (relay f) 0 0 (now + 1000 * 60 * 10)).returned
  · simp only [hret, if_pos]
    omega
  · rw [Bool.not_eq_true] at hret
    simp only [hret, Bool.false_eq_true, if_neg, not_false_iff]
    have h2 := runBatch_eventCount_of_not_returned (requestedLimit f) true (relay f) 0 0
      (now + 1000 * 60 * 10) hret
    have h3 := qsLoop_len_le relay (requestedLimit f) f fuel
      (runBatch (requestedLimit f) true (relay f) 0 0 (now + 1000 * 60 * 10)).batchCount
      (runBatch (requestedLimit f) true (relay f) 0 0 (now + 1000 * 60 * 10)).eventCount
      (runBatch (requestedLimit f) true (relay f) 0 0 (now + 1000 * 60 * 10)).earliest
      (by omega)
    simp only [List.length_append]
    omega

/-- With `requestedLimit = 0` a batch loop yields nothing: the very first
event triggers the over-limit `return` before any `yield`, and if the
loop falls through without a `return` then no event was seen at all, so
`batchCount` is unchanged. -/
theorem runBatch_zero (b : Bool) (msgs : List QMsg) (bc ec : Nat) (ee : Int) :
    (runBatch 0 b msgs bc ec ee).yielded = [] ∧
      ((runBatch 0 b msgs bc ec ee).returned = false →
        (runBatch 0 b msgs bc ec ee).batchCount = bc) := by
  cases msgs with
  | nil => simp [runBatch]
  | cons m rest =>
    cases m with
    | eose => simp [runBatch]
    | evt e => simp [runBatch]

/-- With `requestedLimit = 0` the paging loop exits immediately: its
guard requires `eventCount < requestedLimit`. -/
theorem qsLoop_zero (relay : Filter → List QMsg) (f : Filter)
    (fuel bc ec : Nat) (ee : Int) :
    qsLoop relay 0 f fuel bc ec ee = ⟨[], []⟩ := by
  cases fuel with
  | zero => simp [qsLoop]
  | succ n => simp [qsLoop]

/-- A sample event with given id and timestamp, for concrete runs. -/
def mkEvent (id : String) (created_at : Int) : NEvent :=
  { id := id, pubkey := "pk", sig := "sig", created_at := created_at,
    kind := 1, tags := [], content := "" }

/-- C7 -- Paging bound: `querySaved(filter with limit=L)` yields at most
`L` events in total across all paged requests, and when the filter
carries no `limit` the effective `requestedLimit` is
`Number.MAX_SAFE_INTEGER = 2 ^ 53 - 1`. -/
theorem querySaved_paging_bound (relay : Filter → List QMsg) (now : Int)
    (fuel : Nat) (f : Filter) (L : Nat) (hL : f.limit = some L) :
    (querySaved relay now fuel f).yielded.length ≤ L ∧
      (∀ g : Filter, g.limit = none → requestedLimit g = 2 ^ 53 - 1) := by
  constructor
  · have h := querySaved_len_le relay now fuel f
    rwa [requestedLimit, hL, Option.getD_some] at h
  · intro g hg
    rw [requestedLimit, hg, Option.getD_none, MAX_SAFE_INTEGER]

/-- Witness for C7: a concrete relay that answers three events to every
request, and a filter with `limit = 2`; at most two events come back. -/
theorem querySaved_paging_bound_witness :
    (querySaved
        (fun _ => [QMsg.evt (mkEvent "a" 30), QMsg.evt (mkEvent "b" 20),
          QMsg.evt (mkEvent "c" 10), QMsg.eose])
        0 5 { limit := some 2 }).yielded.length ≤ 2 ∧
      (∀ g : Filter, g.limit = none → requestedLimit g = 2 ^ 53 - 1) :=
  querySaved_paging_bound
    (fun _ => [QMsg.evt (mkEvent "a" 30), QMsg.evt (mkEvent "b" 20),
      QMsg.evt (mkEvent "c" 10), QMsg.eose])
    0 5 { limit := some 2 } 2 rfl

/-- C9 -- With `limit = 0` the generator yields no events at all, yet
a single `REQ` carrying the original filter is still sent: an event
arriving before `EOSE` hits the over-limit `return` before the `yield`,
and if `EOSE` arrives first the paging loop's guard
`eventCount < requestedLimit` is already false. -/
theorem querySaved_limit_zero (relay : Filter → List QMsg) (now : Int)
    (fuel : Nat) (f : Filter) (h : f.limit = some 0) :
    querySaved relay now fuel f = ⟨[], [f]⟩ := by
  simp only [querySaved, requestedLimit, h, Option.getD_some]
  have hz := runBatch_zero true (relay f) 0 0 (now + 1000 * 60 * 10)
  by_cases hret : (runBatch 0 true (relay f) 0 0 (now + 1000 * 60 * 10)).returned
  · simp only [hret, if_pos, hz.1]
  · rw [Bool.not_eq_true] at hret
    simp only [hret, Bool.false_eq_true, if_neg, not_false_iff, hz.1,
      hz.2 hret, qsLoop_zero, List.nil_append]

/-- Witness for C9: a relay that does answer an event is still yielded
nothing when the caller asked for `limit = 0`. -/
theorem querySaved_limit_zero_witness :
    querySaved (fun _ => [QMsg.evt (mkEvent "a" 10), QMsg.eose]) 0 5
        { limit := some 0 } =
      ⟨[], [{ limit := some 0 }]⟩ :=
  querySaved_limit_zero (fun _ => [QMsg.evt (mkEvent "a" 10), QMsg.eose])
    0 5 { limit := some 0 } rfl

/-- A relay for exercising the paging boundary: the first request gets
two events with `created_at` 10 then 9; the follow-up request with
`until = 8` gets two events in ascending order, `created_at` 3 then 7;
every other request gets an empty batch. -/
def boundaryRelay : Filter → List QMsg := fun f =>
  match f.untilTs with
  | none => [QMsg.evt (mkEvent "a" 10), QMsg.evt (mkEvent "b" 9), QMsg.eose]
  | some 8 => [QMsg.evt (mkEvent "c" 3), QMsg.evt (mkEvent "d" 7), QMsg.eose]
  | some _ => [QMsg.eose]

/-- C1 -- Evaluation of `querySaved` at a run refuting the claim: the
second batch delivers events with `created_at` 3 and then 7 (minimum 3),
but the third `REQ` is issued with `until = 6`, i.e. the last event's
timestamp minus one, not `until = 2 = min - 1`.  The follow-up loop of
`querySaved` (`client.ts` line 196) assigns
`earliestEvent = event.created_at` with no `Math.min`, so from the third
request on the bound comes from the most recently received event. -/
theorem querySaved_until_uses_last_event :
    (querySaved boundaryRelay 0 10 {}).requests =
        [{}, { untilTs := some 8 }, { untilTs := some 6 }] ∧
      ({ untilTs := some 6 } : Filter).untilTs ≠
        some (min (3 : Int) 7 - 1) := by
  constructor
  · decide
  · decide

/-! ## The channel (`src/channel.ts`)

The channel state is its pending `#items` queue and `#closed` flag.  The
`#future` waker only affects when the consumer resumes, not what it
receives, and is not part of the state.  `send` models lines 19-25
(throwing `channel is closed` on a closed channel), `close` lines 27-30.

The async iterator (lines 37-55) loops: snapshot `#items` and `#closed`,
reset `#items` to `[]`, yield every snapshotted item, return if the
snapshot said closed, else await the future.  `runConsumer` runs that
loop; between two passes the producer performs one batch of operations
(an arbitrary interleaving of `send`/`close` at pass granularity).  When
no producer activity remains, the pass either ends the iteration (channel
closed) or blocks forever on the future; the boolean in the result tells
which (`true` = end-of-stream was signalled). -/

structure Channel (T : Type) where
  items : List T
  closed : Bool
deriving DecidableEq, Repr

def Channel.new (T : Type) : Channel T := ⟨[], false⟩

def Channel.send (c : Channel T) (t : T) : Except String (Channel T) :=
  if c.closed then Except.error "channel is closed"
  else Except.ok { c with items := c.items ++ [t] }

def Channel.close (c : Channel T) : Channel T :=
  { c with closed := true }

inductive ChanOp (T : Type) where
  | send (t : T)
  | close
deriving DecidableEq, Repr

def applyOp (c : Channel T) : ChanOp T → Except String (Channel T)
  | ChanOp.send t => c.send t
  | ChanOp.close => Except.ok c.close

def applyOps (c : Channel T) : List (ChanOp T) → Except String (Channel T)
  | [] => Except.ok c
  | op :: rest =>
    match applyOp c op with
    | Except.error e => Except.error e
    | Except.ok c' => applyOps c' rest

/-- The consumer's iteration of the channel, with a batch of producer
operations running between consecutive passes of the loop.  Returns the
items received in order, and whether end-of-stream was signalled
(`false` = the consumer is left waiting on the future forever). -/
def runConsumer (c : Channel T) : List (List (ChanOp T)) → Except String (List T × Bool)
  | [] => Except.ok (c.items, c.closed)
  | batch :: rest =>
    if c.closed then Except.ok (c.items, true)
    else
      match applyOps { c with items := [] } batch with
      | Except.error e => Except.error e
      | Except.ok c' =>
        match runConsumer c' rest with
        | Except.error e => Except.error e
        | Except.ok (more, ended) => Except.ok (c.items ++ more, ended)

/-! ## The collector's client cache (`src/collect.ts`)

`CClient` is the part of a `Client` that the cache reads: its URL and its
`closed` flag (`Client.connect` opens a WebSocket and returns a client
whose `closed` getter is initially `false`; the flag becomes `true` when
the socket closes).  The cache `#clients` is a `Map<string, Client>`,
modelled as an insertion-ordered association list. -/

structure CClient where
  url : String
  closed : Bool
deriving DecidableEq, Repr

/-- `Client.connect(url)` as the cache sees it: a fresh, not-yet-closed
client for the URL. -/
def connectClient (url : String) : CClient := ⟨url, false⟩

abbrev ClientCache := List (String × CClient)

def cacheGet (cache : ClientCache) (url : String) : Option CClient :=
  (cache.find? (fun p => p.1 = url)).map (·.2)

def cacheSet (cache : ClientCache) (url : String) (c : CClient) : ClientCache :=
  if (cache.find? (fun p => p.1 = url)).isSome then
    cache.map (fun p => if p.1 = url then (url, c) else p)
  else cache ++ [(url, c)]

/-- `#getClient(url)` (`collect.ts` lines 210-221): look the URL up; a
cached client that has closed makes the method return `null` (the cache
entry is left in place); a cached open client is returned; on a miss a
fresh client is connected, cached and returned.  Debug logging is
irrelevant to the cache and is not modelled. -/
def getClient (cache : ClientCache) (url : String) : Option CClient × ClientCache :=
  match cacheGet cache url with
  | some client =>
    if client.closed then (none, cache)
    else (some client, cache)
  | none =>
    let client := connectClient url
    (some client, cacheSet cache url client)

/-- `#fallbackClients()` (`collect.ts` lines 238-246): walk the source
relay URLs, look each up through `#getClient`, and skip (`continue`) any
URL for which it returned `null`. -/
def fallbackClients (cache : ClientCache) : List String → List CClient × ClientCache
  | [] => ([], cache)
  | url :: rest =>
    match getClient cache url with
    | (none, cache') => fallbackClients cache' rest
    | (some c, cache') =>
      let (cs, cache'') := fallbackClients cache' rest
      (c :: cs, cache'')

/-! ## Server messages and the publisher (`src/nostr/client.ts`)

The relay-to-client message variants are translated from
`src/nostr/server_messages.ts` (`EVENT`, `COUNT`, `OK`, `CLOSED`,
`NOTICE`, `EOSE`). -/

inductive ServerMsg where
  | event (subId : String) (e : NEvent)
  | count (subId : String) (cnt : Nat)
  | ok (eventId : String) (accepted : Bool) (message : String)
  | closedSub (subId : String) (message : String)
  | notice (message : String)
  | eose (subId : String)
deriving DecidableEq, Repr

/-- `server.subscriptionId(message)` (`server_messages.ts`): `null` for
`NOTICE`, otherwise element 1 of the tuple (for `OK` that element is the
event id). -/
def subscriptionId : ServerMsg → Option String
  | ServerMsg.notice _ => none
  | ServerMsg.event s _ => some s
  | ServerMsg.count s _ => some s
  | ServerMsg.ok eid _ _ => some eid
  | ServerMsg.closedSub s _ => some s
  | ServerMsg.eose s => some s

structure PublishResult where
  isDuplicate : Bool
deriving DecidableEq, Repr

/-- The one-shot listener installed by `publish` resolves on the next
`OK` message, checking only the discriminant (`if (m[0] != "OK") return`,
`client.ts` lines 363-368): it does not compare the OK's event id with
the event being published. -/
def firstOK : List ServerMsg → Option (String × Bool × String)
  | [] => none
  | ServerMsg.ok eid accepted msg :: _ => some (eid, accepted, msg)
  | _ :: rest => firstOK rest

/-- `publish(event)` (`client.ts` lines 357-395) against the stream of
messages the connection subsequently receives: await the first `OK`
(`none` = no OK ever arrives and the call stays pending), compute
`isDuplicate = detail.startsWith("duplicate:")`, throw
`Server error when publishing message: <detail>` when `!isOk &&
!isDuplicate`, otherwise return `{ isDuplicate }`. -/
def publish (event : NEvent) (incoming : List ServerMsg) :
    Option (Except String PublishResult) :=
  match firstOK incoming with
  | none => none
  | some (_eid, isOk, detail) =>
    let isDuplicate := detail.startsWith "duplicate:"
    if !isOk && !isDuplicate then
      some (Except.error ("Server error when publishing message: " ++ detail))
    else
      some (Except.ok { isDuplicate := isDuplicate })

/-! ## Inbound frame handling (`src/nostr/client.ts`, `#onMessage`)

An inbound frame's payload, as seen by `#onMessage` (lines 304-316),
falls in one of three classes: `JSON.parse(e.data)` throws (the call
sits on line 306, before and outside the `try` block); the JSON parses
but `server.Message.parse(json)` rejects the shape (caught on lines
311-316: log the raw data and the error, `this.close()`, return); or a
well-formed protocol message that gets dispatched.  The connection state
the handler touches is the subscription registry and, through `close()`
(lines 337-341: close the socket, close and clear every subscription),
the closed flag. -/

inductive Frame where
  | notJson (raw : String)
  | badShape (raw : String)
  | wellFormed (m : ServerMsg)
deriving DecidableEq, Repr

structure Conn where
  subs : List String
  closedFlag : Bool
deriving DecidableEq, Repr

/-- `close()` (`client.ts` lines 337-341). -/
def Conn.closeConn (_c : Conn) : Conn := { subs := [], closedFlag := true }

inductive MessageOutcome where
  | threwOut
  | loggedAndClosed
  | dispatched (m : ServerMsg)
deriving DecidableEq, Repr

/-- `#onMessage` as a state transition on the connection: a payload that
is not JSON at all makes `JSON.parse` throw out of the handler (the
connection is untouched); JSON of the wrong shape is logged and the
connection closed; a well-formed `CLOSED` message removes its
subscription from the registry before dispatch; every other well-formed
message is dispatched as-is. -/
def onMessage (c : Conn) : Frame → Conn × MessageOutcome
  | Frame.notJson _ => (c, MessageOutcome.threwOut)
  | Frame.badShape _ => (c.closeConn, MessageOutcome.loggedAndClosed)
  | Frame.wellFormed m =>
    match m with
    | ServerMsg.closedSub s msg =>
      ({ c with subs := c.subs.erase s },
        MessageOutcome.dispatched (ServerMsg.closedSub s msg))
    | m' => (c, MessageOutcome.dispatched m')

/-! ### Channel lemmas and C8 -/

/-- Sending a list of items to an open channel appends them in order. -/
theorem applyOps_sends : ∀ (ts : List T) (c : Channel T), c.closed = false →
    applyOps c (ts.map ChanOp.send) = Except.ok ⟨c.items ++ ts, false⟩ := by
  intro ts
  induction ts with
  | nil =>
    intro c hopen
    cases c
    simp_all [applyOps]
  | cons t ts ih =>
    intro c hopen
    simp only [List.map_cons, applyOps, applyOp, Channel.send, hopen,
      Bool.false_eq_true, if_neg, not_false_iff]
    rw [ih _ rfl]
    simp

theorem applyOps_append : ∀ (xs ys : List (ChanOp T)) (c : Channel T),
    applyOps c (xs ++ ys) =
      match applyOps c xs with
      | Except.error e => Except.error e
      | Except.ok c' => applyOps c' ys := by
  intro xs
  induction xs with
  | nil => intro ys c; simp [applyOps]
  | cons x xs ih =>
    intro ys c
    simp only [List.cons_append, applyOps]
    cases applyOp c x with
    | error e => simp
    | ok c' => simp [ih]

/-- Sends followed by one `close` leave the items queued and the channel
closed. -/
theorem applyOps_sends_close (ts : List T) (c : Channel T) (hopen : c.closed = false) :
    applyOps c (ts.map ChanOp.send ++ [ChanOp.close]) =
      Except.ok ⟨c.items ++ ts, true⟩ := by
  rw [applyOps_append, applyOps_sends ts c hopen]
  simp [applyOps, applyOp, Channel.close]

/-- Specialisation of `applyOps_sends` to the freshly-reset queue the
consumer leaves behind after a pass. -/
theorem applyOps_sends_nil (ts : List T) :
    applyOps (⟨[], false⟩ : Channel T) (ts.map ChanOp.send) =
      Except.ok ⟨ts, false⟩ := by
  rw [applyOps_sends ts ⟨[], false⟩ rfl]
  simp

/-- Specialisation of `applyOps_sends_close` to the freshly-reset queue. -/
theorem applyOps_sends_close_nil (ts : List T) :
    applyOps (⟨[], false⟩ : Channel T) (ts.map ChanOp.send ++ [ChanOp.close]) =
      Except.ok ⟨ts, true⟩ := by
  rw [applyOps_sends_close ts ⟨[], false⟩ rfl]
  simp

/-- Once the channel is closed, a consumer pass yields the pending items
and ends the iteration, whatever the producer would have done next. -/
theorem runConsumer_of_closed (rest : List (List (ChanOp T))) (c : Channel T)
    (h : c.closed = true) : runConsumer c rest = Except.ok (c.items, true) := by
  cases rest with
  | nil => simp [runConsumer, h]
  | cons b r => simp [runConsumer, h]

/-- A consumer that starts on an open channel receives the pending items
and then everything sent, in order; the iteration ends exactly when a
`close` follows the sends. -/
theorem runConsumer_sends_then_close :
    ∀ (batches : List (List (ChanOp T))) (c : Channel T) (ts : List T),
      c.closed = false →
      batches.flatten = ts.map ChanOp.send ++ [ChanOp.close] →
      runConsumer c batches = Except.ok (c.items ++ ts, true) := by
  intro batches
  induction batches with
  | nil =>
    intro c ts hopen hflat
    exfalso
    cases ts <;> simp at hflat
  | cons batch rest ih =>
    intro c ts hopen hflat
    rw [List.flatten_cons] at hflat
    simp only [runConsumer, hopen, Bool.false_eq_true, if_neg, not_false_iff]
    rcases List.append_eq_append_iff.mp hflat with ⟨a', h1, h2⟩ | ⟨c', h1, h2⟩
    · rcases List.map_eq_append_iff.mp h1 with ⟨ts1, ts2, hts, hb, ha⟩
      rw [← hb, applyOps_sends_nil ts1]
      dsimp only
      rw [ih ⟨ts1, false⟩ ts2 rfl (by rw [h2, ← ha])]
      simp [hts]
    · cases c' with
      | nil =>
        simp only [List.append_nil] at h1
        have h2' : rest.flatten = [ChanOp.close] := by
          simpa using h2.symm
        rw [h1, applyOps_sends_nil ts]
        dsimp only
        rw [ih ⟨ts, false⟩ [] rfl (by simp [h2'])]
        simp
      | cons op tl =>
        rw [List.cons_append] at h2
        injection h2 with hop htail
        have hnil := List.append_eq_nil.mp htail.symm
        subst hop
        rcases hnil with ⟨htl, hrest⟩
        subst htl
        rw [h1, applyOps_sends_close_nil ts]
        dsimp only
        rw [runConsumer_of_closed rest ⟨ts, true⟩ rfl]

/-- Without a `close`, the consumer still receives every sent item in
order but never sees end-of-stream: the last pass leaves it waiting. -/
theorem runConsumer_sends_no_close :
    ∀ (batches : List (List (ChanOp T))) (c : Channel T) (ts : List T),
      c.closed = false →
      batches.flatten = ts.map ChanOp.send →
      runConsumer c batches = Except.ok (c.items ++ ts, false) := by
  intro batches
  induction batches with
  | nil =>
    intro c ts hopen hflat
    have : ts = [] := by
      cases ts
      · rfl
      · simp at hflat
    subst this
    simp [runConsumer, hopen]
  | cons batch rest ih =>
    intro c ts hopen hflat
    rw [List.flatten_cons] at hflat
    simp only [runConsumer, hopen, Bool.false_eq_true, if_neg, not_false_iff]
    rcases List.map_eq_append_iff.mp hflat.symm with ⟨ts1, ts2, hts, hb, ha⟩
    rw [← hb, applyOps_sends_nil ts1]
    dsimp only
    rw [ih ⟨ts1, false⟩ ts2 rfl ha.symm]
    simp [hts]

/-- C8 -- FIFO delivery: starting from a fresh channel, for every
sequence of `send` calls optionally followed by one `close`, however the
producer's operations interleave with the consumer's passes, the consumer
receives exactly the sent items in send order, and it sees end-of-stream
exactly when the `close` happened (after draining every sent item);
without the `close` it is left waiting instead. -/
theorem channel_fifo_delivery (T : Type) (batches : List (List (ChanOp T)))
    (ts : List T) (closedAtEnd : Bool)
    (h : batches.flatten =
      ts.map ChanOp.send ++ if closedAtEnd then [ChanOp.close] else []) :
    runConsumer (Channel.new T) batches = Except.ok (ts, closedAtEnd) := by
  cases closedAtEnd with
  | true =>
    have := runConsumer_sends_then_close batches (Channel.new T) ts rfl (by simpa using h)
    simpa [Channel.new] using this
  | false =>
    have := runConsumer_sends_no_close batches (Channel.new T) ts rfl (by simpa using h)
    simpa [Channel.new] using this

/-- Witness for C8: two items sent across two producer batches, then a
close; the consumer receives both in order and sees end-of-stream. -/
theorem channel_fifo_delivery_witness :
    runConsumer (Channel.new Nat)
        [[ChanOp.send 1], [ChanOp.send 2, ChanOp.close]] =
      Except.ok ([1, 2], true) :=
  channel_fifo_delivery Nat [[ChanOp.send 1], [ChanOp.send 2, ChanOp.close]]
    [1, 2] true rfl

/-! ### C5: the client cache and closed connections -/

/-- C5 counterexample -- a cached connection in `closed` state is NOT
discarded and NOT re-created: `#getClient` returns `null` and leaves the
closed client in the cache, and `#fallbackClients` then skips the relay
entirely. -/
theorem getClient_closed_skips_relay :
    getClient [("wss://relay.example", ⟨"wss://relay.example", true⟩)]
        "wss://relay.example" =
      (none, [("wss://relay.example", ⟨"wss://relay.example", true⟩)]) ∧
    (getClient [("wss://relay.example", ⟨"wss://relay.example", true⟩)]
        "wss://relay.example").1 ≠
      some (connectClient "wss://relay.example") ∧
    fallbackClients [("wss://relay.example", ⟨"wss://relay.example", true⟩)]
        ["wss://relay.example"] =
      ([], [("wss://relay.example", ⟨"wss://relay.example", true⟩)]) := by
  refine ⟨by decide, by decide, by decide⟩

/-- C5 amended -- `#getClient` returns `null` for a URL whose cached
client has closed, leaving the cache unchanged (so `#fallbackClients`
skips that URL); a fresh client is connected and cached lazily only when
the URL is not in the cache at all. -/
theorem getClient_closed_returns_none (cache : ClientCache) (url : String)
    (c : CClient) (hc : cacheGet cache url = some c) (hclosed : c.closed = true) :
    getClient cache url = (none, cache) ∧
      (∀ urls, fallbackClients cache (url :: urls) = fallbackClients cache urls) ∧
      (∀ (cache' : ClientCache) (url' : String), cacheGet cache' url' = none →
        getClient cache' url' =
          (some (connectClient url'), cacheSet cache' url' (connectClient url'))) := by
  have hget : getClient cache url = (none, cache) := by
    simp only [getClient, hc, hclosed, if_pos]
  refine ⟨hget, ?_, ?_⟩
  · intro urls
    simp only [fallbackClients, hget]
  · intro cache' url' hmiss
    simp only [getClient, hmiss]

/-- Witness for the C5 amended theorem at a concrete one-entry cache. -/
theorem getClient_closed_returns_none_witness :
    getClient [("wss://a", ⟨"wss://a", true⟩)] "wss://a" =
        (none, [("wss://a", ⟨"wss://a", true⟩)]) ∧
      (∀ urls, fallbackClients [("wss://a", ⟨"wss://a", true⟩)] ("wss://a" :: urls) =
        fallbackClients [("wss://a", ⟨"wss://a", true⟩)] urls) ∧
      (∀ (cache' : ClientCache) (url' : String), cacheGet cache' url' = none →
        getClient cache' url' =
          (some (connectClient url'), cacheSet cache' url' (connectClient url'))) :=
  getClient_closed_returns_none [("wss://a", ⟨"wss://a", true⟩)] "wss://a"
    ⟨"wss://a", true⟩ (by decide) rfl

/-! ### C6: publish outcome correlation -/

/-- C6 counterexample -- `publish` does not correlate the awaited `OK`
with the published event's id: an `OK` naming a different event id, with
`accepted = false` and a non-duplicate message, makes `publish` throw,
even though no `OK` naming the published event's id ever arrived. -/
theorem publish_resolves_on_foreign_ok :
    publish (mkEvent "myid" 1) [ServerMsg.ok "otherid" false "bad: nope"] =
        some (Except.error "Server error when publishing message: bad: nope") ∧
      "otherid" ≠ "myid" := by
  have hdup : ("bad: nope").startsWith "duplicate:" = false := by decide
  refine ⟨?_, by decide⟩
  simp [publish, firstOK, hdup]

/-- C6 amended -- `publish(e)` awaits the first `OK` message regardless
of which event id it names, and then: `accepted = true` succeeds with
`isDuplicate = message.startsWith "duplicate:"`; `accepted = false` with
a `duplicate:`-prefixed message succeeds with `isDuplicate = true`;
`accepted = false` otherwise throws, carrying the relay's message. -/
theorem publish_outcome_of_first_ok (e : NEvent) (incoming : List ServerMsg)
    (eid : String) (acc : Bool) (msg : String)
    (h : firstOK incoming = some (eid, acc, msg)) :
    (acc = true →
      publish e incoming =
        some (Except.ok { isDuplicate := msg.startsWith "duplicate:" })) ∧
    (acc = false → msg.startsWith "duplicate:" = true →
      publish e incoming = some (Except.ok { isDuplicate := true })) ∧
    (acc = false → msg.startsWith "duplicate:" = false →
      publish e incoming =
        some (Except.error ("Server error when publishing message: " ++ msg))) := by
  refine ⟨?_, ?_, ?_⟩
  · intro hacc
    simp [publish, h, hacc]
  · intro hacc hdup
    simp [publish, h, hacc, hdup]
  · intro hacc hdup
    simp [publish, h, hacc, hdup]

/-- Witness for C6 amended: the duplicate-reply quirk at a concrete
stream (`accepted = false` but a `duplicate:` message succeeds). -/
theorem publish_outcome_of_first_ok_witness :
    ((false : Bool) = true →
      publish (mkEvent "id1" 1) [ServerMsg.ok "id1" false "duplicate: have"] =
        some (Except.ok { isDuplicate := ("duplicate: have").startsWith "duplicate:" })) ∧
    ((false : Bool) = false → ("duplicate: have").startsWith "duplicate:" = true →
      publish (mkEvent "id1" 1) [ServerMsg.ok "id1" false "duplicate: have"] =
        some (Except.ok { isDuplicate := true })) ∧
    ((false : Bool) = false → ("duplicate: have").startsWith "duplicate:" = false →
      publish (mkEvent "id1" 1) [ServerMsg.ok "id1" false "duplicate: have"] =
        some (Except.error ("Server error when publishing message: " ++ "duplicate: have"))) :=
  publish_outcome_of_first_ok (mkEvent "id1" 1)
    [ServerMsg.ok "id1" false "duplicate: have"] "id1" false "duplicate: have" rfl

/-! ### C4: parse failures on the receive path -/

/-- C4 counterexample -- a frame whose payload is not valid JSON does
NOT log-and-close the connection: `JSON.parse` sits outside the `try`
block of `#onMessage`, so the exception escapes the handler and the
connection state is untouched. -/
theorem onMessage_notJson_does_not_close :
    onMessage ⟨["1"], false⟩ (Frame.notJson "not json at all") =
        (⟨["1"], false⟩, MessageOutcome.threwOut) ∧
      (onMessage ⟨["1"], false⟩ (Frame.notJson "not json at all")).1.closedFlag = false ∧
      MessageOutcome.threwOut ≠ MessageOutcome.loggedAndClosed := by
  refine ⟨by decide, by decide, by decide⟩

/-- C4 amended -- only a frame that parses as JSON but fails protocol
validation is logged and closes the connection; a frame that is not
valid JSON throws out of the handler and leaves the connection open. -/
theorem onMessage_parse_failure (raw : String) (c : Conn) :
    onMessage c (Frame.badShape raw) = (c.closeConn, MessageOutcome.loggedAndClosed) ∧
      (onMessage c (Frame.badShape raw)).1.closedFlag = true ∧
      onMessage c (Frame.notJson raw) = (c, MessageOutcome.threwOut) :=
  ⟨rfl, rfl, rfl⟩

/-! ## The NIP-95 file codec (`src/nostr/nip95.ts`)

Byte blobs are `List Nat` (with `< 256` where it matters).  The base64
and hex encoders model `encodeBase64` / `decodeBase64` / `encodeHex`
from the `@std/encoding` library the codec uses; the JSON serializer
models `JSON.stringify` of a signed event (no whitespace).  SHA-256 and
the BIP-340 signature are kept as parameters: the `Hasher` class feeds
the chunk stream to `crypto.subtle.digest("SHA-256", ...)`, which is a
function of the concatenated bytes, and the signer is deterministic
given the template (the spec's design note; `LocalSigner` uses
`finalizeEvent`), so every theorem below holds for the real functions in
particular. -/

def B64_ALPHABET : List Char :=
  "ABCDEFGHIJKLMNOPQRSTUVWXYZabcdefghijklmnopqrstuvwxyz0123456789+/".toList

def b64Char (n : Nat) : Char := B64_ALPHABET.getD n 'A'

/-- RFC 4648 base64 of a byte list: each 3-byte group becomes 4 alphabet
characters; a trailing 1- or 2-byte group is padded with `=`. -/
def b64EncodeList : List Nat → List Char
  | b1 :: b2 :: b3 :: rest =>
    b64Char (b1 / 4) :: b64Char (b1 % 4 * 16 + b2 / 16) ::
      b64Char (b2 % 16 * 4 + b3 / 64) :: b64Char (b3 % 64) :: b64EncodeList rest
  | [b1, b2] =>
    [b64Char (b1 / 4), b64Char (b1 % 4 * 16 + b2 / 16), b64Char (b2 % 16 * 4), '=']
  | [b1] => [b64Char (b1 / 4), b64Char (b1 % 4 * 16), '=', '=']
  | [] => []

/-- `encodeBase64` from `@std/encoding/base64`. -/
def encodeBase64 (bytes : List Nat) : String := ⟨b64EncodeList bytes⟩

def b64Value (c : Char) : Nat := B64_ALPHABET.indexOf c

/-- Reassemble bytes from 6-bit values (4 values to 3 bytes; a trailing
group of 3 or 2 values decodes the 2- or 1-byte remainder). -/
def b64Assemble : List Nat → List Nat
  | v1 :: v2 :: v3 :: v4 :: rest =>
    (v1 * 4 + v2 / 16) :: (v2 % 16 * 16 + v3 / 4) :: (v3 % 4 * 64 + v4) ::
      b64Assemble rest
  | [v1, v2, v3] => [v1 * 4 + v2 / 16, v2 % 16 * 16 + v3 / 4]
  | [v1, v2] => [v1 * 4 + v2 / 16]
  | _ => []

/-- `decodeBase64` from `@std/encoding/base64`: drop the padding, map
characters to their 6-bit values, reassemble bytes. -/
def decodeBase64 (s : String) : List Nat :=
  b64Assemble ((s.data.filter (fun c => c != '=')).map b64Value)

def hexDigit (n : Nat) : Char := "0123456789abcdef".toList.getD n '0'

/-- `encodeHex` from `@std/encoding/hex`: two lowercase hex digits per
byte. -/
def encodeHex (bytes : List Nat) : String :=
  ⟨(bytes.map (fun b => [hexDigit (b / 16), hexDigit (b % 16)])).flatten⟩

/-! ### JSON serialization of a signed event

Models `JSON.stringify(event)` with no whitespace, as exercised by the
repository's own `nip95_test.ts` (which pins the serialized size of a
fixed event to `EVENT_OVERHEAD`).  Key order follows `finalizeEvent`
from nostr-tools, which extends the caller's template (`kind`,
`created_at`, `tags`, `content`) with `pubkey`, `id`, `sig`; the length
is independent of key order.  Lengths are counted in characters; every
string these claims evaluate is ASCII, where JavaScript's UTF-16 length
coincides. -/

def jsonEscapeChar (c : Char) : List Char :=
  if c = '"' then ['\\', '"']
  else if c = '\\' then ['\\', '\\']
  else if c = '\x08' then ['\\', 'b']
  else if c = '\t' then ['\\', 't']
  else if c = '\n' then ['\\', 'n']
  else if c = '\x0c' then ['\\', 'f']
  else if c = '\r' then ['\\', 'r']
  else if c.toNat < 32 then
    ['\\', 'u', '0', '0', hexDigit (c.toNat / 16), hexDigit (c.toNat % 16)]
  else [c]

def jsonOfString (s : String) : List Char :=
  '"' :: (s.data.map jsonEscapeChar).flatten ++ ['"']

def jsonList (items : List (List Char)) : List Char :=
  '[' :: List.intercalate [','] items ++ [']']

def jsonOfTags (tags : List (List String)) : List Char :=
  jsonList (tags.map (fun tag => jsonList (tag.map jsonOfString)))

def jsonField (key : String) (value : List Char) : List Char :=
  jsonOfString key ++ ':' :: value

def jsonOfEvent (e : NEvent) : String :=
  ⟨'\x7b' :: List.intercalate [','] [
      jsonField "kind" (toString e.kind).data,
      jsonField "created_at" (toString e.created_at).data,
      jsonField "tags" (jsonOfTags e.tags),
      jsonField "content" (jsonOfString e.content),
      jsonField "pubkey" (jsonOfString e.pubkey),
      jsonField "id" (jsonOfString e.id),
      jsonField "sig" (jsonOfString e.sig)] ++ ['\x7d']⟩

/-- `EVENT_OVERHEAD` (`nip95.ts` line 99). -/
def EVENT_OVERHEAD : Nat := 345

/-- The fixed event of the repository's `test message size`
(`nip95_test.ts`), with a 10-digit `created_at`. -/
def overheadExampleEvent : NEvent :=
  { id := "82a4a84ca26e47fb041606f6e6baba3dc5c82a74bc9921a70c909c52067e5351",
    pubkey := "82a4a84ca26e47fb041606f6e6baba3dc5c82a74bc9921a70c909c52067e5351",
    sig := "82a4a84ca26e47fb041606f6e6baba3dc5c82a74bc9921a70c909c52067e535182a4a84ca26e47fb041606f6e6baba3dc5c82a74bc9921a70c909c52067e5351",
    kind := 1064, created_at := 1700000000, tags := [], content := "" }

set_option maxRecDepth 40000 in
/-- Sanity anchor reproducing the repository's own overhead test: the
JSON serializer and the constant agree. -/
theorem event_overhead_constant :
    (jsonOfEvent overheadExampleEvent).length = EVENT_OVERHEAD := by decide

/-! ### Signer and templates (`src/nostr/signer.ts`) -/

structure EventTemplate where
  kind : Nat
  created_at : Int
  tags : List (List String)
  content : String
deriving DecidableEq, Repr

/-- A deterministic signer: `pubkey` is fixed by the secret key, `idOf`
is the canonical-serialization hash, `sigOf` the BIP-340 signature.
`sign` models `finalizeEvent(template, secret)` (used by
`LocalSigner.sign`), which extends the template with those three
fields. -/
structure Signer where
  pubkey : String
  idOf : EventTemplate → String
  sigOf : EventTemplate → String

def Signer.sign (s : Signer) (t : EventTemplate) : NEvent :=
  { id := s.idOf t, pubkey := s.pubkey, sig := s.sigOf t,
    created_at := t.created_at, kind := t.kind, tags := t.tags,
    content := t.content }

/-! ### The chunker and `encodeFile` -/

/-- Loop of `blobChunks`, with explicit fuel so that it is structurally
recursive (and so computes in the kernel).  Each iteration slices off
one `blockSize`-byte chunk; with `blockSize > 0` and fuel at least the
number of remaining bytes, the fuel never runs out before the bytes
do. -/
def blobChunksGo (blockSize : Nat) : Nat → List Nat → List (List Nat)
  | 0, _ => []
  | _ + 1, [] => []
  | fuel + 1, b :: bt =>
    (b :: bt).take blockSize :: blobChunksGo blockSize fuel ((b :: bt).drop blockSize)

/-- `blobChunks(blob, blockSize)` (`nip95.ts` lines 161-172): slice the
blob into consecutive `blockSize`-byte chunks (the final chunk may be
shorter); `bytes.length` rounds of the loop always suffice.  For
`blockSize = 0` the source loop would never advance `start` and never
terminate; the model returns `[]` there, and no claim evaluates that
region (`maxMessageSize ≥ 1 KiB` keeps the block size positive). -/
def blobChunks (bytes : List Nat) (blockSize : Nat) : List (List Nat) :=
  if blockSize = 0 then [] else blobChunksGo blockSize bytes.length bytes

/-- `maxContentSize` and the block-size computation of `encodeFile`
(`nip95.ts` lines 34-42): `floor(maxContentSize * 3 / 4)` shrunk to a
multiple of 3.  (For `maxMessageSize < EVENT_OVERHEAD` the source
computes a negative block size and `blobChunks` never terminates; `Nat`
subtraction makes the model return block size 0 there, and no claim
evaluates that region.) -/
def blockSizeFor (maxMessageSize : Nat) : Nat :=
  let maxContentSize := maxMessageSize - EVENT_OVERHEAD
  let b := maxContentSize * 3 / 4
  b - b % 3

/-- `EncodeOptions` (`nip95.ts` lines 101-142). -/
structure EncodeOptions where
  file : List Nat
  signer : Signer
  maxMessageSize : Nat
  fileName : String
  description : Option String := none
  alt : Option String := none
  mimetype : Option String := none
  createdAt : Option Int := none

/-- The template `signChunk` signs (`nip95.ts` lines 174-183): kind
1064, empty tags, the chunk base64-encoded as content. -/
def chunkTemplate (createdAt : Int) (chunk : List Nat) : EventTemplate :=
  { tags := [], kind := 1064, created_at := createdAt,
    content := encodeBase64 chunk }

/-- `encodeFile(inputOpts)` (`nip95.ts` lines 22-96), as the list of
events the generator yields: the kind-1065 metadata event first, then
the kind-1064 chunk events in order.  A missing (or empty, which is
falsy) mimetype throws.  The first pass signs every chunk to collect
event ids and feeds the same chunks to the hasher; the second pass
re-chunks the blob and signs again (same templates, deterministic
signer). -/
def encodeFile (sha256 : List Nat → List Nat) (opts : EncodeOptions)
    (now : Int) : Except String (List NEvent) :=
  match opts.mimetype with
  | none => Except.error "TODO: guess mimetype from file."
  | some m =>
    if m = "" then Except.error "TODO: guess mimetype from file."
    else
      let createdAt := opts.createdAt.getD now
      let blockSize := blockSizeFor opts.maxMessageSize
      let chunks := blobChunks opts.file blockSize
      let eventIDs := chunks.map (fun c => (opts.signer.sign (chunkTemplate createdAt c)).id)
      let hashHex := encodeHex (sha256 chunks.flatten)
      let tags0 := [["name", opts.fileName], ["m", m], ["x", hashHex],
        ["fileName", opts.fileName], ["size", toString opts.file.length]]
      let tags1 := if 1 < eventIDs.length then
          tags0 ++ [["blockSize", toString blockSize]]
        else tags0
      let tags2 := tags1 ++ eventIDs.map (fun id => ["e", id])
      let tags3 := match opts.alt with
        | some a => if a = "" then tags2 else tags2 ++ [["alt", a]]
        | none => tags2
      let metaEvent := opts.signer.sign
        { kind := 1065, created_at := createdAt, tags := tags3,
          content := opts.description.getD "" }
      Except.ok
        (metaEvent :: chunks.map (fun c => opts.signer.sign (chunkTemplate createdAt c)))

/-- The `e`-tag values of an event, in tag order (as read by
`nip95_test.ts`: `tags.filter(t => t[0] == "e").map(t => t[1])`). -/
def eTags (e : NEvent) : List String :=
  (e.tags.filter (fun t => t.getD 0 "" == "e")).map (fun t => t.getD 1 "")

/-- The value of the first tag with the given name (as read by
`singleTag` in `nip95_test.ts`). -/
def tagValue (name : String) (e : NEvent) : Option String :=
  (e.tags.find? (fun t => t.getD 0 "" == name)).map (fun t => t.getD 1 "")

/-! ### Base64 round-trip -/

theorem b64Value_b64Char : ∀ n, n < 64 → b64Value (b64Char n) = n := by decide

theorem b64Char_ne_pad : ∀ n, n < 64 → (b64Char n != '=') = true := by decide

theorem pad_filter_false : (('=' : Char) != '=') = false := by decide

/-- Decoding undoes encoding on genuine byte lists. -/
theorem b64_decode_encode : ∀ (bytes : List Nat), (∀ b ∈ bytes, b < 256) →
    decodeBase64 (encodeBase64 bytes) = bytes := by
  intro bytes
  induction bytes using b64EncodeList.induct with
  | case1 b1 b2 b3 rest ih =>
    intro h
    have hb1 : b1 < 256 := h b1 (by simp)
    have hb2 : b2 < 256 := h b2 (by simp)
    have hb3 : b3 < 256 := h b3 (by simp)
    have k1 : b1 / 4 < 64 := by omega
    have k2 : b1 % 4 * 16 + b2 / 16 < 64 := by omega
    have k3 : b2 % 16 * 4 + b3 / 64 < 64 := by omega
    have k4 : b3 % 64 < 64 := by omega
    have ihr := ih (fun b hb => h b (by simp [hb]))
    simp only [decodeBase64, encodeBase64, b64EncodeList, List.filter_cons,
      b64Char_ne_pad _ k1, b64Char_ne_pad _ k2, b64Char_ne_pad _ k3,
      b64Char_ne_pad _ k4, if_true, List.map_cons,
      b64Value_b64Char _ k1, b64Value_b64Char _ k2, b64Value_b64Char _ k3,
      b64Value_b64Char _ k4, b64Assemble] at ihr ⊢
    rw [ihr]
    simp only [List.cons.injEq]
    refine ⟨by omega, by omega, by omega, trivial⟩
  | case2 b1 b2 =>
    intro h
    have hb1 : b1 < 256 := h b1 (by simp)
    have hb2 : b2 < 256 := h b2 (by simp)
    have k1 : b1 / 4 < 64 := by omega
    have k2 : b1 % 4 * 16 + b2 / 16 < 64 := by omega
    have k3 : b2 % 16 * 4 < 64 := by omega
    simp only [decodeBase64, encodeBase64, b64EncodeList, List.filter_cons,
      b64Char_ne_pad _ k1, b64Char_ne_pad _ k2, b64Char_ne_pad _ k3,
      pad_filter_false, if_true, if_false, List.filter_nil, List.map_cons,
      List.map_nil, b64Value_b64Char _ k1, b64Value_b64Char _ k2,
      b64Value_b64Char _ k3, b64Assemble]
    simp only [List.cons.injEq]
    refine ⟨by omega, by omega, trivial⟩
  | case3 b1 =>
    intro h
    have hb1 : b1 < 256 := h b1 (by simp)
    have k1 : b1 / 4 < 64 := by omega
    have k2 : b1 % 4 * 16 < 64 := by omega
    simp only [decodeBase64, encodeBase64, b64EncodeList, List.filter_cons,
      b64Char_ne_pad _ k1, b64Char_ne_pad _ k2, pad_filter_false, if_true,
      if_false, List.filter_nil, List.map_cons, List.map_nil,
      b64Value_b64Char _ k1, b64Value_b64Char _ k2, b64Assemble]
    simp only [List.cons.injEq]
    refine ⟨by omega, trivial⟩
  | case4 =>
    intro _
    simp [decodeBase64, encodeBase64, b64EncodeList, b64Assemble]

/-! ### Chunking lemmas -/

/-- With positive block size and enough fuel, the loop's chunks
concatenate back to the input. -/
theorem blobChunksGo_flatten (bs : Nat) (hbs : 0 < bs) :
    ∀ (fuel : Nat) (bytes : List Nat), bytes.length ≤ fuel →
      (blobChunksGo bs fuel bytes).flatten = bytes := by
  intro fuel
  induction fuel with
  | zero =>
    intro bytes hlen
    have : bytes = [] := List.eq_nil_of_length_eq_zero (by omega)
    subst this
    simp [blobChunksGo]
  | succ n ih =>
    intro bytes hlen
    cases bytes with
    | nil => simp [blobChunksGo]
    | cons b bt =>
      have hlen2 : ((b :: bt).drop bs).length ≤ n := by
        simp only [List.length_drop, List.length_cons] at hlen ⊢
        omega
      rw [blobChunksGo, List.flatten_cons, ih _ hlen2, List.take_append_drop]

/-- The chunks of a blob concatenate back to the blob. -/
theorem blobChunks_flatten (bytes : List Nat) (bs : Nat) (hbs : 0 < bs) :
    (blobChunks bytes bs).flatten = bytes := by
  rw [blobChunks, if_neg (by omega)]
  exact blobChunksGo_flatten bs hbs bytes.length bytes le_rfl

/-- Every byte of every chunk is a byte of the input. -/
theorem blobChunksGo_mem (bs : Nat) :
    ∀ (fuel : Nat) (bytes c : List Nat),
      c ∈ blobChunksGo bs fuel bytes → ∀ b ∈ c, b ∈ bytes := by
  intro fuel
  induction fuel with
  | zero =>
    intro bytes c hc
    cases bytes <;> simp [blobChunksGo] at hc
  | succ n ih =>
    intro bytes c hc b hb
    cases bytes with
    | nil => simp [blobChunksGo] at hc
    | cons x xt =>
      rw [blobChunksGo] at hc
      rcases List.mem_cons.mp hc with rfl | hc
      · exact List.take_subset _ _ hb
      · exact List.drop_subset _ _ (ih ((x :: xt).drop bs) c hc b hb)

/-- Every byte of every chunk is a byte of the blob. -/
theorem blobChunks_mem (bytes : List Nat) (bs : Nat) (c : List Nat)
    (hc : c ∈ blobChunks bytes bs) : ∀ b ∈ c, b ∈ bytes := by
  rw [blobChunks] at hc
  by_cases h : bs = 0
  · simp [h] at hc
  · rw [if_neg h] at hc
    exact blobChunksGo_mem bs bytes.length bytes c hc

/-- The block size is positive whenever `maxMessageSize ≥ 1 KiB`. -/
theorem blockSizeFor_pos (mms : Nat) (h : 1024 ≤ mms) : 0 < blockSizeFor mms := by
  simp only [blockSizeFor, EVENT_OVERHEAD]
  omega

/-- C3 -- File-codec reconstruction: for every file and every
`maxMessageSize ≥ 1 KiB`, `encodeFile` succeeds with the metadata event
first; the metadata `e`-tags are exactly the chunk events' ids in
emission order; base64-decoding the chunk contents in that order and
concatenating yields the file back; and the `x`-tag is the lowercase hex
SHA-256 of the file. -/
theorem encodeFile_reconstruction
    (sha256 : List Nat → List Nat) (signer : Signer) (file : List Nat)
    (mms : Nat) (fileName m : String) (desc alt : Option String)
    (createdAt : Option Int) (now : Int)
    (hbytes : ∀ b ∈ file, b < 256) (hmms : 1024 ≤ mms) (hm : m ≠ "") :
    ∃ (meta : NEvent) (chunkEvents : List NEvent),
      encodeFile sha256
          { file := file, signer := signer, maxMessageSize := mms,
            fileName := fileName, description := desc, alt := alt,
            mimetype := some m, createdAt := createdAt } now
        = Except.ok (meta :: chunkEvents) ∧
      eTags meta = chunkEvents.map (fun e => e.id) ∧
      (chunkEvents.map (fun e => decodeBase64 e.content)).flatten = file ∧
      tagValue "x" meta = some (encodeHex (sha256 file)) := by
  have hbs : 0 < blockSizeFor mms := blockSizeFor_pos mms hmms
  have hflat : (blobChunks file (blockSizeFor mms)).flatten = file :=
    blobChunks_flatten file (blockSizeFor mms) hbs
  simp only [encodeFile, if_neg hm]
  refine ⟨_, _, rfl, ?_, ?_, ?_⟩
  · -- e-tags equal chunk ids in order
    simp only [eTags, Signer.sign]
    split <;> (try split) <;> (try split) <;>
      simp [List.filter_append, List.filter_map, Function.comp_def,
        List.map_map, chunkTemplate]
  · -- decoded chunk contents concatenate to the file
    simp only [Signer.sign, List.map_map, Function.comp_def, chunkTemplate]
    have hmap : (blobChunks file (blockSizeFor mms)).map
        (fun c => decodeBase64 (encodeBase64 c)) =
        (blobChunks file (blockSizeFor mms)).map (fun c => c) := by
      apply List.map_congr_left
      intro c hc
      exact b64_decode_encode c
        (fun b hb => hbytes b (blobChunks_mem file (blockSizeFor mms) c hc b hb))
    rw [hmap]
    simpa using hflat
  · -- the x tag is the hex hash of the whole file
    simp only [tagValue, Signer.sign, hflat]
    split <;> (try split) <;> (try split) <;>
      simp [List.find?_append, List.find?_cons]

/-- A concrete deterministic signer for witnesses and counterexamples:
64-char pubkey and id, 128-char signature, as a real BIP-340 signer
produces (only the lengths matter to these evaluations). -/
def demoSigner : Signer :=
  { pubkey := String.mk (List.replicate 64 '0'),
    idOf := fun _ => String.mk (List.replicate 64 '1'),
    sigOf := fun _ => String.mk (List.replicate 128 '2') }

/-- Witness for C3: a three-byte file at `maxMessageSize = 1024`. -/
theorem encodeFile_reconstruction_witness :
    ∃ (meta : NEvent) (chunkEvents : List NEvent),
      encodeFile (fun _ => List.replicate 32 0)
          { file := [0, 1, 2], signer := demoSigner, maxMessageSize := 1024,
            fileName := "f.bin", description := none, alt := none,
            mimetype := some "a/b", createdAt := some 1700000000 } 0
        = Except.ok (meta :: chunkEvents) ∧
      eTags meta = chunkEvents.map (fun e => e.id) ∧
      (chunkEvents.map (fun e => decodeBase64 e.content)).flatten = [0, 1, 2] ∧
      tagValue "x" meta = some (encodeHex (List.replicate 32 0)) :=
  encodeFile_reconstruction (fun _ => List.replicate 32 0) demoSigner [0, 1, 2]
    1024 "f.bin" "a/b" none none (some 1700000000) 0 (by decide) (by decide)
    (by decide)

/-! ### C2: the metadata event can exceed `maxMessageSize` -/

/-- A 117-byte file encoded with `maxMessageSize = 400`: the block size
is 39, giving three 39-byte chunks and three `e`-tags on the metadata
event. -/
def c2Opts : EncodeOptions :=
  { file := List.replicate 117 0, signer := demoSigner, maxMessageSize := 400,
    fileName := "f.bin", mimetype := some "a/b", createdAt := some 1700000000 }

/-- The events `encodeFile` yields for `c2Opts`. -/
def c2Events : List NEvent :=
  (encodeFile (fun _ => List.replicate 32 0) c2Opts 0).toOption.getD []

set_option maxRecDepth 100000 in
/-- C2 -- Evaluation at a refuting input: for the 117-byte file of
`c2Opts` with `maxMessageSize = 400`, every kind-1064 chunk event
serializes to 397 bytes (within bounds), but the kind-1065 metadata
event serializes to 720 bytes, exceeding `maxMessageSize`: nothing in
`encodeFile` bounds the metadata event, whose `e`-tag list grows with
the number of chunks. -/
theorem encodeFile_metadata_exceeds_maxMessageSize :
    c2Opts.maxMessageSize = 400 ∧
      c2Events.map (fun e => (jsonOfEvent e).length) = [720, 397, 397, 397] ∧
      ¬ (∀ e ∈ c2Events, (jsonOfEvent e).length ≤ c2Opts.maxMessageSize) := by
  refine ⟨rfl, by decide, by decide⟩

end NostrCli
